import Mathlib

/-
Verification of the Chronologicon Engine (historical-event ingestion and
temporal-analytics service) against its natural-language specification.

The development shallowly embeds the relevant source functions:
  * `HistoricalEvent.findOverlappingEvents`  (SQL pair join, overlap filter, ordering)
  * `HistoricalEvent.findTemporalGaps`       (window filter, sort, consecutive-gap scan)
  * `HistoricalEvent.findShortestPath`       (graph build + Dijkstra + path reconstruction)
  * `FileIngestionService.parseLine`, `processFile`, `startIngestion`, `getJobStatus`
  * `IngestionJob` ledger operations (as an operation trace)

Timestamps are modelled as integers (epoch seconds); SQL `EXTRACT(EPOCH ...)`
differences become integer subtraction, and JavaScript `Math.round(x/60)` on the
nonnegative values it is applied to becomes `jsRound60`.  External effects
(database commits, file readability, stream failures) are modelled as explicit
oracle parameters.  JavaScript `Map` objects are modelled as association lists
with JS `Map.set` replace-in-place semantics, and the ES2019 stable
`Array.prototype.sort` is modelled by stable insertion sort.
-/

namespace Chrono

/-- JavaScript `Math.round(s / 60)` for the nonnegative numbers of seconds `s`
it is applied to in the source (`Math.round(row.overlap_duration_minutes)` and
`Math.round(gap.gap_duration_minutes)`, both guarded by a `> 0` SQL filter):
`Math.round(x) = ⌊x + 1/2⌋`, so for `s ≥ 0` this is `(s + 30) / 60` in
natural-number division. -/
def jsRound60 (s : Int) : Int := ((s.toNat + 30) / 60 : Nat)

/-! ## Event rows for the interval-analytics queries -/

/-- A row of `historical_events` as seen by the overlap / gap SQL queries:
identifier, name, and the start/end timestamps in epoch seconds. -/
structure OEvent where
  event_id : String
  event_name : String
  start_sec : Int
  end_sec : Int
deriving DecidableEq, Repr

/-- The SQL `EXTRACT(EPOCH FROM (LEAST(e1.end_date, e2.end_date) -
GREATEST(e1.start_date, e2.start_date)))`, in seconds. -/
def overlapRaw (e1 e2 : OEvent) : Int :=
  min e1.end_sec e2.end_sec - max e1.start_sec e2.start_sec

/-- Strict lexicographic order on character lists: the SQL `<` comparison on
`uuid`/text values (canonical UUIDs all have the same length, so byte order is
character order). -/
def charsLt : List Char → List Char → Bool
  | [], [] => false
  | [], _ :: _ => true
  | _ :: _, [] => false
  | c :: cs, d :: ds => if c < d then true else if d < c then false else charsLt cs ds

/-- SQL `<` on two text/uuid values. -/
def strLt (a b : String) : Bool := charsLt a.data b.data

/-- The join/filter condition of the overlap query: `e1.event_id < e2.event_id`
(the `INNER JOIN ... ON` clause) together with the `WHERE` clause
`e1.start_date < e2.end_date AND e2.start_date < e1.end_date AND
EXTRACT(...) > 0`. -/
def overlapJoinCond (e1 e2 : OEvent) : Bool :=
  strLt e1.event_id e2.event_id && decide (e1.start_sec < e2.end_sec) &&
    decide (e2.start_sec < e1.end_sec) && decide (0 < overlapRaw e1 e2)

/-- One result row of `findOverlappingEvents`: the two event records, the raw
overlap in seconds (the quantity the SQL `ORDER BY` sorts on), and the rounded
`overlap_duration_minutes` field produced by the JS mapping. -/
structure OverlapRow where
  event1 : OEvent
  event2 : OEvent
  overlap_seconds : Int
  overlap_duration_minutes : Int
deriving DecidableEq, Repr

/-- Model of `HistoricalEvent.findOverlappingEvents`: all pairs `(e1, e2)` of the event
table with `e1.event_id < e2.event_id` whose intervals overlap, ordered by
overlap duration descending, each row carrying
`overlap_duration_minutes = Math.round(seconds / 60)`. -/
def findOverlappingEvents (evs : List OEvent) : List OverlapRow :=
  let rows := evs.flatMap (fun e1 =>
    (evs.filter (fun e2 => overlapJoinCond e1 e2)).map (fun e2 =>
      { event1 := e1, event2 := e2, overlap_seconds := overlapRaw e1 e2,
        overlap_duration_minutes := jsRound60 (overlapRaw e1 e2) }))
  List.insertionSort (fun a b => b.overlap_seconds ≤ a.overlap_seconds) rows

/-! ## Gap finder -/

/-- One gap row of the `gaps` CTE in `findTemporalGaps`: the preceding event
(`LAG`), the succeeding event, and the gap size. -/
structure GapInfo where
  startOfGap : Int
  endOfGap : Int
  gap_seconds : Int
  durationMinutes : Int
  precedingEvent : OEvent
  succeedingEvent : OEvent
deriving DecidableEq, Repr

/-- The result shape of `findTemporalGaps`: either a largest gap or an explicit
no-gap answer, with the corresponding message string. -/
structure GapResult where
  largestGap : Option GapInfo
  message : String
deriving DecidableEq, Repr

/-- The `ordered_events` CTE: events fully contained in the window
(`start_date >= $1 AND end_date <= $2`), ordered by `start_date`. -/
def orderedEvents (evs : List OEvent) (windowStart windowEnd : Int) : List OEvent :=
  List.insertionSort (fun a b => a.start_sec ≤ b.start_sec)
    (evs.filter (fun e => decide (windowStart ≤ e.start_sec) && decide (e.end_sec ≤ windowEnd)))

/-- The `gaps` CTE restricted by the outer `WHERE gap_start IS NOT NULL AND
gap_duration_minutes > 0`: consecutive pairs of `ordered_events` whose gap
(next start minus previous end) is positive. -/
def positiveGaps (evs : List OEvent) (windowStart windowEnd : Int) : List GapInfo :=
  let ordered := orderedEvents evs windowStart windowEnd
  ((ordered.zip ordered.tail).map (fun p =>
    { startOfGap := p.1.end_sec, endOfGap := p.2.start_sec,
      gap_seconds := p.2.start_sec - p.1.end_sec,
      durationMinutes := jsRound60 (p.2.start_sec - p.1.end_sec),
      precedingEvent := p.1, succeedingEvent := p.2 })).filter
    (fun g => decide (0 < g.gap_seconds))

/-- Model of `HistoricalEvent.findTemporalGaps`: order the positive consecutive gaps by
duration descending, take the first (`LIMIT 1`); if there is none, return the
explicit no-gap result. -/
def findTemporalGaps (evs : List OEvent) (windowStart windowEnd : Int) : GapResult :=
  match List.insertionSort (fun a b => b.gap_seconds ≤ a.gap_seconds)
      (positiveGaps evs windowStart windowEnd) with
  | [] =>
    { largestGap := none,
      message := "No significant temporal gaps found within the specified range, or too few events." }
  | g :: _ => { largestGap := some g, message := "Largest temporal gap identified." }

/-! ## Shortest path (Event Influence Spreader)

JavaScript `Map` objects (`graph`, `eventDetails`, `distances`, `previous`) are
modelled as association lists: `Map.set` replaces the value in place when the
key exists and appends otherwise, `Map.get` returns the first binding.
`Infinity` distances are `none` in `Option Int`. -/

/-- JS `Map.get`: the value of the first binding of the key, if any. -/
def alookup {α : Type} : List (String × α) → String → Option α
  | [], _ => none
  | (k', v') :: rest, k => if k' = k then some v' else alookup rest k

/-- JS `Map.set`: replace the existing binding in place, else append. -/
def aset {α : Type} : List (String × α) → String → α → List (String × α)
  | [], k, v => [(k, v)]
  | (k', v') :: rest, k, v =>
    if k' = k then (k, v) :: rest else (k', v') :: aset rest k v

/-- A row of the graph query in `findShortestPath`:
`SELECT event_id, event_name, duration_minutes, parent_event_id`. -/
structure GEvent where
  event_id : String
  event_name : String
  duration_minutes : Int
  parent_event_id : Option String
deriving DecidableEq, Repr

/-- One node of the reconstructed path (`event_id`, `event_name`,
`duration_minutes` as pushed by `path.unshift`). -/
structure PathNode where
  event_id : String
  event_name : String
  duration_minutes : Int
deriving DecidableEq, Repr

/-- The JSON result of `findShortestPath`. -/
structure SPResult where
  sourceEventId : String
  targetEventId : String
  shortestPath : List PathNode
  totalDurationMinutes : Int
  message : String
deriving DecidableEq, Repr

/-- One step of the adjacency/details build loop (`events.forEach`): record the
event details, ensure a node for the event, and append the event to its
parent's child list (ensuring a node for the parent). -/
def buildStep (acc : List (String × List String) × List (String × GEvent)) (e : GEvent) :
    List (String × List String) × List (String × GEvent) :=
  let graph := acc.1
  let details := aset acc.2 e.event_id e
  let graph := if (alookup graph e.event_id).isNone then aset graph e.event_id [] else graph
  match e.parent_event_id with
  | none => (graph, details)
  | some p =>
    let graph := if (alookup graph p).isNone then aset graph p [] else graph
    (aset graph p ((alookup graph p).getD [] ++ [e.event_id]), details)

/-- The body of the `for (const neighborId of neighbors)` loop: skip visited
neighbours, compute `newDistance = distances.get(current) + duration`, and on
improvement update `distances`, `previous` and push onto the queue.  A missing
details entry for a neighbour cannot occur (every adjacency target is the
`event_id` of some event, and details are set for every event); the branch is a
no-op. -/
def relaxStep (details : List (String × GEvent)) (curId : String) (visited : List String)
    (acc : List (String × Option Int) × List (String × String) × List (String × Int))
    (nId : String) :
    List (String × Option Int) × List (String × String) × List (String × Int) :=
  let (dist, prev, queue) := acc
  if visited.contains nId then acc
  else
    match alookup details nId with
    | none => acc
    | some nev =>
      match alookup dist curId with
      | some (some d) =>
        let nd := d + nev.duration_minutes
        let doUpd : Bool :=
          match alookup dist nId with
          | some (some old) => decide (nd < old)
          | some none => true
          | none => false
        if doUpd then (aset dist nId (some nd), aset prev nId curId, queue ++ [(nId, nd)])
        else acc
      | _ => acc

/-- The Dijkstra `while (queue.length > 0)` loop: sort the queue by distance
(stable, as ES2019 `Array.prototype.sort`), shift the head, skip it if visited,
stop on the target, otherwise relax its neighbours.  The loop performs at most
one pop per queue push and pushes at most once per edge plus the initial
source entry, so the fuel passed by `findShortestPath` is never exhausted. -/
def dloop (graph : List (String × List String)) (details : List (String × GEvent))
    (target : String) :
    Nat → List (String × Int) → List String → List (String × Option Int) →
      List (String × String) → List (String × String)
  | 0, _, _, _, prev => prev
  | fuel + 1, queue, visited, dist, prev =>
    match List.insertionSort (fun a b => a.2 ≤ b.2) queue with
    | [] => prev
    | cur :: rest =>
      if visited.contains cur.1 then dloop graph details target fuel rest visited dist prev
      else
        let visited' := cur.1 :: visited
        if cur.1 = target then prev
        else
          let neighbors := (alookup graph cur.1).getD []
          let st := neighbors.foldl (relaxStep details cur.1 visited') (dist, prev, rest)
          dloop graph details target fuel st.2.2 visited' st.1 st.2.1

/-- The path-reconstruction `while (currentEventId !== undefined)` loop,
walking `previous` back from the target and prepending each node
(`path.unshift`).  `none` models the JavaScript `TypeError` raised when
`eventDetails.get(currentEventId)` is `undefined`. -/
def reconstructPath (details : List (String × GEvent)) (prev : List (String × String)) :
    Nat → String → List PathNode → Option (List PathNode)
  | 0, _, _ => none
  | fuel + 1, cur, acc =>
    match alookup details cur with
    | none => none
    | some ev =>
      let acc := ⟨ev.event_id, ev.event_name, ev.duration_minutes⟩ :: acc
      match alookup prev cur with
      | none => some acc
      | some p => reconstructPath details prev fuel p acc

/-- Model of `HistoricalEvent.findShortestPath`: build the parent→child adjacency and
details maps from the full event table, run Dijkstra from the source, and
either report an explicit no-path result (when `previous` has no entry for the
target and source ≠ target) or reconstruct the node sequence and sum the
`duration_minutes` of every node on it.  `none` models an uncaught JavaScript
exception. -/
def findShortestPath (events : List GEvent) (sourceEventId targetEventId : String) :
    Option SPResult :=
  let gd := events.foldl buildStep ([], [])
  let dist0 := events.foldl (fun m e => aset m e.event_id (none : Option Int)) []
  let dist0 := aset dist0 sourceEventId (some 0)
  let prev := dloop gd.1 gd.2 targetEventId (events.length + 2) [(sourceEventId, 0)] [] dist0 []
  if alookup prev targetEventId = none ∧ sourceEventId ≠ targetEventId then
    some { sourceEventId := sourceEventId, targetEventId := targetEventId,
           shortestPath := [], totalDurationMinutes := 0,
           message := "No temporal path found from source to target event." }
  else
    match reconstructPath gd.2 prev (events.length + 1) targetEventId [] with
    | none => none
    | some path =>
      some { sourceEventId := sourceEventId, targetEventId := targetEventId,
             shortestPath := path,
             totalDurationMinutes := path.foldl (fun s n => s + n.duration_minutes) 0,
             message := "Shortest temporal path found from source to target event." }

/-! ## Line parser (`FileIngestionService.parseLine`) -/

/-- The typed parse failures thrown by `parseLine` (each is a JS `Error` with a
distinctive message). -/
inductive ParseErr where
  | malformed (expected got : Nat)
  | invalidUUID (s : String)
  | invalidStartDate (s : String)
  | invalidEndDate (s : String)
  | dateOrder
  | invalidParentUUID (s : String)
deriving DecidableEq, Repr

/-- The numeric value of a decimal digit character. -/
def dval (c : Char) : Nat := c.toNat - '0'.toNat

/-- JavaScript `String.prototype.trim()`: strip leading and trailing
whitespace. -/
def jsTrim (s : String) : String :=
  ⟨((s.data.dropWhile Char.isWhitespace).reverse.dropWhile Char.isWhitespace).reverse⟩

/-- Helper for `jsSplit`: accumulate the current field (reversed) while
scanning the remaining characters. -/
def jsSplitGo (sep : Char) : List Char → List Char → List String
  | [], acc => [⟨acc.reverse⟩]
  | c :: rest, acc =>
    if c = sep then ⟨acc.reverse⟩ :: jsSplitGo sep rest [] else jsSplitGo sep rest (c :: acc)

/-- JavaScript `String.prototype.split(sep)` for a one-character separator:
`"a|b".split("|") = ["a","b"]`, `"".split("|") = [""]`. -/
def jsSplit (sep : Char) (s : String) : List String := jsSplitGo sep s.data []

/-- JavaScript `String.prototype.toUpperCase()` (ASCII, as needed for the
`NULL` parent-id comparison). -/
def jsToUpper (s : String) : String := ⟨s.data.map Char.toUpper⟩

/-- JavaScript `new Date(s).getTime()` restricted to the strict ISO form
`YYYY-MM-DDTHH:MM:SSZ` used by the repository's data files, mapped to a
timestamp encoding that is strictly monotone in calendar order (the code only
ever compares parsed dates, never does arithmetic on them). `none` models an
invalid date (`isNaN(getTime())`). -/
def parseISODate (s : String) : Option Int :=
  match s.data with
  | [y1, y2, y3, y4, c1, mo1, mo2, c2, d1, d2, t, h1, h2, c3, mi1, mi2, c4, s1, s2, z] =>
    if c1 = '-' ∧ c2 = '-' ∧ t = 'T' ∧ c3 = ':' ∧ c4 = ':' ∧ z = 'Z' ∧
        ([y1, y2, y3, y4, mo1, mo2, d1, d2, h1, h2, mi1, mi2, s1, s2].all Char.isDigit) = true then
      let y := ((dval y1 * 10 + dval y2) * 10 + dval y3) * 10 + dval y4
      let mo := dval mo1 * 10 + dval mo2
      let d := dval d1 * 10 + dval d2
      let h := dval h1 * 10 + dval h2
      let mi := dval mi1 * 10 + dval mi2
      let sec := dval s1 * 10 + dval s2
      if 1 ≤ mo ∧ mo ≤ 12 ∧ 1 ≤ d ∧ d ≤ 31 ∧ h ≤ 23 ∧ mi ≤ 59 ∧ sec ≤ 59 then
        some ((((((y * 12 + (mo - 1)) * 31 + (d - 1)) * 24 + h) * 60 + mi) * 60 + sec : Nat) : Int)
      else none
    else none
  | _ => none

/-- One hexadecimal digit, case-insensitive (`[0-9a-f]` under the `/i` flag). -/
def isHexChar (c : Char) : Bool :=
  c.isDigit || ('a' ≤ c && c ≤ 'f') || ('A' ≤ c && c ≤ 'F')

/-- Model of `FileIngestionService.isValidUUID`: the regex
`^[0-9a-f]{8}-[0-9a-f]{4}-[1-5][0-9a-f]{3}-[89ab][0-9a-f]{3}-[0-9a-f]{12}$/i`:
five dash-separated hex groups of lengths 8-4-4-4-12, version nibble `1`–`5`,
variant nibble `8/9/a/b` (case-insensitive). -/
def isValidUUID (s : String) : Bool :=
  match jsSplit '-' s with
  | [g1, g2, g3, g4, g5] =>
    g1.length = 8 && g2.length = 4 && g3.length = 4 && g4.length = 4 && g5.length = 12 &&
    (g1.data ++ g2.data ++ g3.data ++ g4.data ++ g5.data).all isHexChar &&
    (match g3.data with
     | v :: _ => '1' ≤ v && v ≤ '5'
     | [] => false) &&
    (match g4.data with
     | v :: _ => v = '8' || v = '9' || v = 'a' || v = 'b' || v = 'A' || v = 'B'
     | [] => false)
  | _ => false

/-- A validated event draft as returned by `parseLine`, including the
provenance metadata (`source_file`, `line_number`; `parsing_flags` is always
the empty list). -/
structure EventDraft where
  event_id : String
  event_name : String
  description : Option String
  start_ts : Int
  end_ts : Int
  parent_event_id : Option String
  source_file : String
  line_number : Nat
deriving DecidableEq, Repr

/-- Model of `FileIngestionService.parseLine`: skip blank lines (`ok none`), require
exactly 6 pipe-delimited fields, validate the event UUID, both dates and their
order, and the optional parent UUID (absent when empty or case-insensitively
`NULL`); empty description normalises to `none`. -/
def parseLine (line : String) (lineNumber : Nat) (filePath : String) :
    Except ParseErr (Option EventDraft) :=
  if jsTrim line = "" then .ok none
  else
    let parts := jsSplit '|' line
    if parts.length = 6 then
      let eventId := jsTrim (parts.getD 0 "")
      let eventName := jsTrim (parts.getD 1 "")
      let startStr := jsTrim (parts.getD 2 "")
      let endStr := jsTrim (parts.getD 3 "")
      let parentStr := jsTrim (parts.getD 4 "")
      let descStr := jsTrim (parts.getD 5 "")
      if isValidUUID eventId = true then
        match parseISODate startStr with
        | none => .error (.invalidStartDate startStr)
        | some sd =>
          match parseISODate endStr with
          | none => .error (.invalidEndDate endStr)
          | some ed =>
            if ed ≤ sd then .error .dateOrder
            else
              let draft : EventDraft :=
                { event_id := eventId, event_name := eventName,
                  description := if descStr = "" then none else some descStr,
                  start_ts := sd, end_ts := ed, parent_event_id := none,
                  source_file := filePath, line_number := lineNumber }
              if parentStr ≠ "" ∧ jsToUpper parentStr ≠ "NULL" then
                if isValidUUID parentStr = true then
                  .ok (some { draft with parent_event_id := some parentStr })
                else .error (.invalidParentUUID parentStr)
              else .ok (some draft)
      else .error (.invalidUUID eventId)
    else .error (.malformed 6 parts.length)

/-! ## Ingestion job ledger and `processFile` -/

/-- The job states of the `ingestion_jobs` table. -/
inductive JobStatus where
  | PROCESSING
  | COMPLETED
  | FAILED
deriving DecidableEq, Repr

/-- The Job Ledger operations performed by the ingestion controller
(`IngestionJob.create / updateProgress / addError / fail`), abstracted to the
fields they write. -/
inductive LedgerOp where
  | createJob (status : JobStatus)
  | setTotal (total : Nat)
  | addError (line : Nat) (err : ParseErr)
  | flushProgress (processed errors : Int)
  | finishCompleted (processed errors : Int)
  | failJob
deriving DecidableEq, Repr

/-- The job status a ledger operation writes, if any. -/
def statusOf : LedgerOp → Option JobStatus
  | .createJob s => some s
  | .finishCompleted _ _ => some JobStatus.COMPLETED
  | .failJob => some JobStatus.FAILED
  | _ => none

/-- The mutable state of one `processFile` run: the local counters and batch of
the JS function, plus the Event Store commit log, the remaining commit-outcome
oracle, and the ledger operations performed so far. -/
structure IngestState where
  lineNumber : Nat
  processedLines : Int
  errorLines : Int
  batch : List EventDraft
  commits : List (List EventDraft × Bool)
  oracle : List Bool
  ops : List LedgerOp
deriving DecidableEq, Repr

/-- Consume the next commit outcome from the oracle (defaults to success). -/
def takeOracle : List Bool → Bool × List Bool
  | [] => (true, [])
  | b :: rest => (b, rest)

/-- One iteration of the `for await (const line of rl)` loop: bump the line
counter, parse the line (success grows the batch and the processed counter,
failure bumps the error counter and appends a ledger error, a blank line does
neither), commit the batch atomically once it reaches 100 (on commit failure
the whole batch is recounted from processed to error and discarded), and flush
progress to the ledger every 100 lines. -/
def stepLine (filePath : String) (st : IngestState) (line : String) : IngestState :=
  let n := st.lineNumber + 1
  let st1 :=
    match parseLine line n filePath with
    | .ok none => { st with lineNumber := n }
    | .ok (some ev) =>
      { st with lineNumber := n, batch := st.batch ++ [ev],
                processedLines := st.processedLines + 1 }
    | .error e =>
      { st with lineNumber := n, errorLines := st.errorLines + 1,
                ops := st.ops ++ [.addError n e] }
  let st2 :=
    if 100 ≤ st1.batch.length then
      let o := takeOracle st1.oracle
      if o.1 = true then
        { st1 with batch := [], commits := st1.commits ++ [(st1.batch, true)], oracle := o.2 }
      else
        { st1 with batch := [], commits := st1.commits ++ [(st1.batch, false)], oracle := o.2,
                   errorLines := st1.errorLines + st1.batch.length,
                   processedLines := st1.processedLines - st1.batch.length }
    else st1
  if n % 100 = 0 then
    { st2 with ops := st2.ops ++ [.flushProgress st2.processedLines st2.errorLines] }
  else st2

/-- Commit the trailing partial batch after stream exhaustion, under the same
atomic-group/failure accounting as in-loop commits (the JS code leaves
`eventBatch` itself untouched here; it is never used again). -/
def finalizeBatch (st : IngestState) : IngestState :=
  if st.batch = [] then st
  else
    let o := takeOracle st.oracle
    if o.1 = true then
      { st with commits := st.commits ++ [(st.batch, true)], oracle := o.2 }
    else
      { st with commits := st.commits ++ [(st.batch, false)], oracle := o.2,
                errorLines := st.errorLines + st.batch.length,
                processedLines := st.processedLines - st.batch.length }

/-- The state at the start of the background task, after the pre-count pass
has set `total_lines` (the pre-count counts every line, blank or not). -/
def initState (oracle : List Bool) (totalLines : Nat) : IngestState :=
  { lineNumber := 0, processedLines := 0, errorLines := 0, batch := [], commits := [],
    oracle := oracle, ops := [.setTotal totalLines] }

/-- The main per-line loop of `processFile` over the file's lines. -/
def runLines (filePath : String) (st : IngestState) (lines : List String) : IngestState :=
  lines.foldl (stepLine filePath) st

/-- Model of `FileIngestionService.processFile` on the happy path (no stream failure):
pre-count, per-line loop, trailing-batch commit, then the final
`updateProgress` writing the counters and the `COMPLETED` status. -/
def processFile (filePath : String) (lines : List String) (oracle : List Bool) : IngestState :=
  let st := finalizeBatch (runLines filePath (initState oracle lines.length) lines)
  { st with ops := st.ops ++ [.finishCompleted st.processedLines st.errorLines] }

/-- The ledger-operation trace of one background `processFile` task, with the
possible fatal failures: `countFails` models a pre-count I/O failure (the
`catch` fails the job before `total_lines` is written), `fatalAfter k` models a
stream failure after `k` lines (the `catch` fails the job), and otherwise the
run completes. -/
def processFileOps (filePath : String) (lines : List String) (oracle : List Bool)
    (countFails : Bool) (fatalAfter : Option Nat) : List LedgerOp :=
  if countFails = true then [.failJob]
  else
    match fatalAfter with
    | some k => (runLines filePath (initState oracle lines.length) (lines.take k)).ops ++ [.failJob]
    | none => (processFile filePath lines oracle).ops

/-- The full ledger trace of one ingestion job: the synchronous
`IngestionJob.create` in `PROCESSING` state followed by the background task's
operations. -/
def jobTrace (filePath : String) (lines : List String) (oracle : List Bool)
    (countFails : Bool) (fatalAfter : Option Nat) : List LedgerOp :=
  .createJob JobStatus.PROCESSING :: processFileOps filePath lines oracle countFails fatalAfter

/-! ## `startIngestion` and `getJobStatus` -/

/-- A row of the `ingestion_jobs` table. -/
structure JobRecord where
  job_id : String
  status : JobStatus
  file_path : String
  total_lines : Int
  processed_lines : Int
  error_lines : Int
  errors : List String
  start_time : Int
  end_time : Option Int
deriving DecidableEq, Repr

/-- The synchronous JSON response of `startIngestion`. -/
structure IngestResponse where
  status : String
  jobId : String
deriving DecidableEq, Repr

/-- Model of `FileIngestionService.startIngestion`, synchronous part: `readable` models
the `fs.access(filePath)` check, `jobId` the freshly generated job identifier,
and `now` the creation timestamp.  On an unreadable file the call throws and no
job record is created; otherwise the `PROCESSING` job record is created and
the job id is returned at once — the per-line processing runs as a separate
background task (`processFile`) that is not part of this call's result. -/
def startIngestion (readable : Bool) (jobId filePath : String) (now : Int) :
    Except String (JobRecord × IngestResponse) :=
  if readable = true then
    .ok ({ job_id := jobId, status := JobStatus.PROCESSING, file_path := filePath,
           total_lines := 0, processed_lines := 0, error_lines := 0, errors := [],
           start_time := now, end_time := none },
         { status := "Ingestion initiated", jobId := jobId })
  else .error "Failed to start ingestion"

/-- The JSON response of `getJobStatus`.  `startTime`/`endTime` are `none` when
the corresponding fields are absent from the response object. -/
structure StatusResponse where
  jobId : String
  status : JobStatus
  processedLines : Int
  errorLines : Int
  totalLines : Int
  errors : List String
  startTime : Option Int
  endTime : Option Int
deriving DecidableEq, Repr

/-- Model of `FileIngestionService.getJobStatus`: look the job up in the ledger (throw
`Job not found` when absent) and return its snapshot; the `startTime` and
`endTime` fields are attached only when the job's status is `COMPLETED`. -/
def getJobStatus (ledger : List JobRecord) (jobId : String) : Except String StatusResponse :=
  match ledger.find? (fun j => j.job_id = jobId) with
  | none => .error "Job not found"
  | some job =>
    .ok { jobId := job.job_id, status := job.status,
          processedLines := job.processed_lines, errorLines := job.error_lines,
          totalLines := job.total_lines, errors := job.errors,
          startTime := if job.status = JobStatus.COMPLETED then some job.start_time else none,
          endTime := if job.status = JobStatus.COMPLETED then job.end_time else none }

/-! ## Concrete fixtures -/

/-- A three-event parent→child chain `a → b → c` with durations 5, 10, 20. -/
def evA1 : GEvent := ⟨"a", "A", 5, none⟩

/-- Middle element of the concrete chain (duration 10, parent `a`). -/
def evB1 : GEvent := ⟨"b", "B", 10, some "a"⟩

/-- Last element of the concrete chain (duration 20, parent `b`). -/
def evC1 : GEvent := ⟨"c", "C", 20, some "b"⟩

/-! ## Claims -/

/-- C10: calling `findShortestPath` directly with `sourceId = targetId` for an
existing event (bypassing the route's equal-ids rejection) does not return the
no-path result: it returns the one-element path holding just that event, and
`totalDurationMinutes` is that event's own `duration_minutes` (5 here), not 0. -/
theorem claim10_self_path :
    findShortestPath [evA1, evB1, evC1] "a" "a" =
      some { sourceEventId := "a", targetEventId := "a",
             shortestPath := [⟨"a", "A", 5⟩], totalDurationMinutes := 5,
             message := "Shortest temporal path found from source to target event." } ∧
    evA1.duration_minutes = 5 ∧ (5 : Int) ≠ 0 := by
  decide

/-- C1 (counterexample): on the concrete chain `a → b → c` with durations 5,
10, 20, `findShortestPath a c` does return the ordered node sequence
`[a, b, c]`, but its cumulative weight is 35 (the source node's own duration is
included in the sum), not 30 as the claim states. -/
theorem claim1_counterexample :
    (findShortestPath [evA1, evB1, evC1] "a" "c").map
        (fun r => (r.shortestPath.map PathNode.event_id, r.totalDurationMinutes)) =
      some (["a", "b", "c"], 35) ∧
    ¬ (findShortestPath [evA1, evB1, evC1] "a" "c").map
        (fun r => r.totalDurationMinutes) = some 30 := by
  decide

/-- C1 (amended): for every parent→child chain `A → B → C` with
`duration_minutes` 10 for B and 20 for C, `findShortestPath(A, C)` returns the
ordered node sequence `[A, B, C]` whose reported cumulative weight is
`duration(A) + 30` — the code sums the `duration_minutes` of every node on the
path, including the source — and `findShortestPath(C, A)` returns the explicit
no-path result. -/
theorem claim1_amended (ia ib ic na nb nc : String) (dA : Int)
    (hab : ia ≠ ib) (hac : ia ≠ ic) (hbc : ib ≠ ic) :
    findShortestPath
        [⟨ia, na, dA, none⟩, ⟨ib, nb, 10, some ia⟩, ⟨ic, nc, 20, some ib⟩] ia ic =
      some { sourceEventId := ia, targetEventId := ic,
             shortestPath := [⟨ia, na, dA⟩, ⟨ib, nb, 10⟩, ⟨ic, nc, 20⟩],
             totalDurationMinutes := dA + 30,
             message := "Shortest temporal path found from source to target event." } ∧
    findShortestPath
        [⟨ia, na, dA, none⟩, ⟨ib, nb, 10, some ia⟩, ⟨ic, nc, 20, some ib⟩] ic ia =
      some { sourceEventId := ic, targetEventId := ia,
             shortestPath := [], totalDurationMinutes := 0,
             message := "No temporal path found from source to target event." } := by
  have hba := hab.symm
  have hca := hac.symm
  have hcb := hbc.symm
  constructor
  · simp [findShortestPath, buildStep, aset, alookup, dloop, relaxStep, reconstructPath,
      List.insertionSort, List.orderedInsert, hab, hac, hbc, hba, hca, hcb,
      List.contains_cons, beq_iff_eq]
    omega
  · simp [findShortestPath, buildStep, aset, alookup, dloop, relaxStep, reconstructPath,
      List.insertionSort, List.orderedInsert, hab, hac, hbc, hba, hca, hcb,
      List.contains_cons, beq_iff_eq]

/-- C1 (witness): the amended chain theorem instantiated at the concrete chain
`x → y → z` with source duration 7. -/
theorem claim1_witness :
    findShortestPath
        [⟨"x", "X", 7, none⟩, ⟨"y", "Y", 10, some "x"⟩, ⟨"z", "Z", 20, some "y"⟩] "x" "z" =
      some { sourceEventId := "x", targetEventId := "z",
             shortestPath := [⟨"x", "X", 7⟩, ⟨"y", "Y", 10⟩, ⟨"z", "Z", 20⟩],
             totalDurationMinutes := 7 + 30,
             message := "Shortest temporal path found from source to target event." } ∧
    findShortestPath
        [⟨"x", "X", 7, none⟩, ⟨"y", "Y", 10, some "x"⟩, ⟨"z", "Z", 20, some "y"⟩] "z" "x" =
      some { sourceEventId := "z", targetEventId := "x",
             shortestPath := [], totalDurationMinutes := 0,
             message := "No temporal path found from source to target event." } :=
  claim1_amended "x" "y" "z" "X" "Y" "Z" 7 (by decide) (by decide) (by decide)

/-! ## Parser lemmas -/

/-- A blank or whitespace-only line is skipped: `parseLine` returns `ok none`. -/
theorem parseLine_blank {l : String} (n : Nat) (fp : String) (hb : jsTrim l = "") :
    parseLine l n fp = .ok none := by
  simp [parseLine, hb]

/-- The parser returns the skip result exactly on blank lines. -/
theorem parseLine_ok_none_iff (l : String) (n : Nat) (fp : String) :
    parseLine l n fp = .ok none ↔ jsTrim l = "" := by
  constructor
  · intro h
    by_contra hne
    unfold parseLine at h
    rw [if_neg hne] at h
    repeat first
      | (split at h)
      | simp_all
  · exact parseLine_blank n fp

/-- C4 (counterexample): a whitespace-only line has pipe-split field count 1,
which is not 6, yet `parseLine` does not fail with a `MalformedEntry` error —
it skips the line. -/
theorem claim4_counterexample :
    parseLine "   " 1 "f" = .ok none ∧
    (jsSplit '|' "   ").length = 1 ∧ ¬ (jsSplit '|' "   ").length = 6 :=
  ⟨rfl, rfl, by decide⟩

/-- C4 (amended): for every **non-blank** line whose pipe-split field count is
not 6, `parseLine` fails with exactly the `MalformedEntry` error reporting
expected count 6 versus the actual count; no other error kind (UUID, date,
date-order, parent UUID) can be raised for such a line. -/
theorem claim4_amended (line : String) (n : Nat) (fp : String)
    (hb : ¬ jsTrim line = "") (hc : (jsSplit '|' line).length ≠ 6) :
    parseLine line n fp = .error (.malformed 6 (jsSplit '|' line).length) := by
  simp [parseLine, hb, hc]

/-- C4 (witness): the amended theorem at the concrete two-field line `a|b`. -/
theorem claim4_witness : parseLine "a|b" 3 "g" = .error (.malformed 6 2) := by
  have h := claim4_amended "a|b" 3 "g" (by decide) (by decide)
  simpa using h

/-! ## Ledger-trace lemmas (job state machine) -/

/-- Every ledger operation appended by one line step is a progress flush or an
error append — never a status write. -/
theorem stepLine_ops_mem (fp : String) (st : IngestState) (l : String) :
    ∀ op ∈ (stepLine fp st l).ops, op ∈ st.ops ∨ statusOf op = none := by
  intro op hop
  unfold stepLine at hop
  cases hp : parseLine l (st.lineNumber + 1) fp with
  | error e =>
    simp only [hp, apply_ite IngestState.ops, ite_self] at hop
    try dsimp only at hop
    repeat split at hop
    all_goals try simp only [List.mem_append, List.mem_singleton] at hop
    all_goals first
      | (exact Or.inl hop)
      | (rcases hop with h | rfl
         · exact Or.inl h
         · simp [statusOf])
      | (rcases hop with (h | rfl) | rfl
         · exact Or.inl h
         · simp [statusOf]
         · simp [statusOf])
  | ok v =>
    cases v with
    | none =>
      simp only [hp, apply_ite IngestState.ops, ite_self] at hop
      try dsimp only at hop
      repeat split at hop
      all_goals try simp only [List.mem_append, List.mem_singleton] at hop
      all_goals first
        | (exact Or.inl hop)
        | (rcases hop with h | rfl
           · exact Or.inl h
           · simp [statusOf])
    | some ev =>
      simp only [hp, apply_ite IngestState.ops, ite_self] at hop
      try dsimp only at hop
      repeat split at hop
      all_goals try simp only [List.mem_append, List.mem_singleton] at hop
      all_goals first
        | (exact Or.inl hop)
        | (rcases hop with h | rfl
           · exact Or.inl h
           · simp [statusOf])

/-- The trailing-batch commit performs no Job Ledger operation. -/
theorem finalizeBatch_ops (st : IngestState) : (finalizeBatch st).ops = st.ops := by
  unfold finalizeBatch
  split
  · rfl
  · dsimp only
    split <;> rfl

/-- Ledger operations appended during the per-line loop never write a status. -/
theorem runLines_ops_mem (fp : String) (lines : List String) (st : IngestState) :
    ∀ op ∈ (runLines fp st lines).ops, op ∈ st.ops ∨ statusOf op = none := by
  induction lines generalizing st with
  | nil => intro op hop; exact Or.inl hop
  | cons l ls ih =>
    intro op hop
    rcases ih (stepLine fp st l) op hop with h | h
    · exact stepLine_ops_mem fp st l op h
    · exact Or.inr h

/-- C8: in every reachable ledger trace of one ingestion job — any file
contents, any commit-outcome oracle, with or without a pre-count failure or a
mid-stream fatal failure — the job is created in `PROCESSING` state, the only
further status write is the single final operation, and that final status is
`COMPLETED` or `FAILED`; no operation mutates the record after the terminal
write. -/
theorem claim8_status_transitions (fp : String) (lines : List String) (oracle : List Bool)
    (countFails : Bool) (fatalAfter : Option Nat) :
    ∃ body last,
      jobTrace fp lines oracle countFails fatalAfter =
        LedgerOp.createJob JobStatus.PROCESSING :: (body ++ [last]) ∧
      (statusOf last = some JobStatus.COMPLETED ∨ statusOf last = some JobStatus.FAILED) ∧
      ∀ op ∈ body, statusOf op = none := by
  unfold jobTrace processFileOps
  by_cases hc : countFails = true
  · rw [if_pos hc]
    exact ⟨[], .failJob, by simp, Or.inr rfl, by simp⟩
  · rw [if_neg hc]
    cases fatalAfter with
    | some k =>
      refine ⟨(runLines fp (initState oracle lines.length) (lines.take k)).ops, .failJob,
        by simp, Or.inr rfl, ?_⟩
      intro op hop
      rcases runLines_ops_mem fp (lines.take k) (initState oracle lines.length) op hop with h | h
      · simp [initState] at h
        subst h
        rfl
      · exact h
    | none =>
      unfold processFile
      refine ⟨(finalizeBatch (runLines fp (initState oracle lines.length) lines)).ops,
        _, rfl, Or.inl rfl, ?_⟩
      intro op hop
      rw [finalizeBatch_ops] at hop
      rcases runLines_ops_mem fp lines (initState oracle lines.length) op hop with h | h
      · simp [initState] at h
        subst h
        rfl
      · exact h

/-- C8 (witness): the trace theorem applied to a concrete one-line job. -/
theorem claim8_witness :
    ∃ body last,
      jobTrace "f" ["x|y"] [] false none =
        LedgerOp.createJob JobStatus.PROCESSING :: (body ++ [last]) ∧
      (statusOf last = some JobStatus.COMPLETED ∨ statusOf last = some JobStatus.FAILED) ∧
      ∀ op ∈ body, statusOf op = none :=
  claim8_status_transitions "f" ["x|y"] [] false none

/-! ## Counter-invariant lemmas -/

/-- One line step changes the processed/error counter sum by one exactly on a
non-blank line (parse success and parse failure each add one; a batch-commit
failure moves the batch size between the counters, preserving the sum). -/
theorem stepLine_sum (fp : String) (st : IngestState) (l : String) :
    (stepLine fp st l).processedLines + (stepLine fp st l).errorLines =
      st.processedLines + st.errorLines + (if jsTrim l = "" then 0 else 1) := by
  cases hp : parseLine l (st.lineNumber + 1) fp with
  | error e =>
    have hne : ¬ jsTrim l = "" := by
      intro hb
      rw [parseLine_blank (st.lineNumber + 1) fp hb] at hp
      exact absurd hp (by simp)
    unfold stepLine
    simp only [hp, if_neg hne, apply_ite IngestState.processedLines,
      apply_ite IngestState.errorLines, ite_self]
    repeat split
    all_goals omega
  | ok v =>
    cases v with
    | none =>
      have hb : jsTrim l = "" := (parseLine_ok_none_iff l (st.lineNumber + 1) fp).mp hp
      unfold stepLine
      simp only [hp, if_pos hb, apply_ite IngestState.processedLines,
        apply_ite IngestState.errorLines, ite_self]
      repeat split
      all_goals omega
    | some ev =>
      have hne : ¬ jsTrim l = "" := by
        intro hb
        rw [parseLine_blank (st.lineNumber + 1) fp hb] at hp
        exact absurd hp (by simp)
      unfold stepLine
      simp only [hp, if_neg hne, apply_ite IngestState.processedLines,
        apply_ite IngestState.errorLines, ite_self]
      repeat split
      all_goals omega

/-- Across the per-line loop, the counter sum grows by exactly the number of
non-blank lines consumed. -/
theorem runLines_sum (fp : String) (lines : List String) (st : IngestState) :
    (runLines fp st lines).processedLines + (runLines fp st lines).errorLines =
      st.processedLines + st.errorLines +
        ((lines.filter (fun l => decide (¬ jsTrim l = ""))).length : Int) := by
  induction lines generalizing st with
  | nil => simp [runLines]
  | cons l ls ih =>
    have h1 := stepLine_sum fp st l
    have h2 := ih (stepLine fp st l)
    simp only [runLines, List.foldl_cons] at h2 ⊢
    rw [h2, h1]
    by_cases hb : jsTrim l = ""
    · simp [hb]
    · simp [hb]
      omega

/-- The trailing-batch commit preserves the counter sum. -/
theorem finalizeBatch_sum (st : IngestState) :
    (finalizeBatch st).processedLines + (finalizeBatch st).errorLines =
      st.processedLines + st.errorLines := by
  unfold finalizeBatch
  split
  · rfl
  · dsimp only
    split
    · rfl
    · dsimp only
      omega

/-- C3: at job completion, `processed_lines + error_lines` equals the number
of non-blank lines of the file (blank lines count toward neither counter), and
is therefore at most `total_lines`, the pre-counted number of all lines. -/
theorem claim3_counter_invariant (fp : String) (lines : List String) (oracle : List Bool) :
    (processFile fp lines oracle).processedLines + (processFile fp lines oracle).errorLines =
      ((lines.filter (fun l => decide (¬ jsTrim l = ""))).length : Int) ∧
    (processFile fp lines oracle).processedLines + (processFile fp lines oracle).errorLines ≤
      (lines.length : Int) := by
  have hr := runLines_sum fp lines (initState oracle lines.length)
  have hf := finalizeBatch_sum (runLines fp (initState oracle lines.length) lines)
  have hexpr : (processFile fp lines oracle).processedLines +
      (processFile fp lines oracle).errorLines =
      ((lines.filter (fun l => decide (¬ jsTrim l = ""))).length : Int) := by
    unfold processFile
    dsimp only
    rw [hf, hr]
    simp [initState]
  refine ⟨hexpr, ?_⟩
  rw [hexpr]
  exact_mod_cast Int.ofNat_le.mpr (List.length_filter_le _ _)

/-! ## `startIngestion` and `getJobStatus` claims -/

/-- C7: `startIngestion` fails immediately with the ingestion-start error and
creates no job record when the file is not readable; when it is readable, it
synchronously creates a `PROCESSING` ledger entry carrying the freshly
generated job identifier and returns that identifier to the caller (the
per-line processing is a separate background task, not part of this call). -/
theorem claim7_start_ingestion (readable : Bool) (jobId filePath : String) (now : Int) :
    (readable = false → startIngestion readable jobId filePath now =
        .error "Failed to start ingestion") ∧
    (readable = true → startIngestion readable jobId filePath now =
        .ok ({ job_id := jobId, status := JobStatus.PROCESSING, file_path := filePath,
               total_lines := 0, processed_lines := 0, error_lines := 0, errors := [],
               start_time := now, end_time := none },
             { status := "Ingestion initiated", jobId := jobId })) := by
  constructor <;> intro h <;> simp [startIngestion, h]

/-- C7 (witness): the start contract at a concrete unreadable and readable
file. -/
theorem claim7_witness :
    startIngestion false "j" "f" 0 = .error "Failed to start ingestion" ∧
    startIngestion true "j" "f" 0 =
      .ok ({ job_id := "j", status := JobStatus.PROCESSING, file_path := "f",
             total_lines := 0, processed_lines := 0, error_lines := 0, errors := [],
             start_time := 0, end_time := none },
           { status := "Ingestion initiated", jobId := "j" }) :=
  ⟨(claim7_start_ingestion false "j" "f" 0).1 rfl,
   (claim7_start_ingestion true "j" "f" 0).2 rfl⟩

/-- A concrete `FAILED` job record whose ledger row carries both times. -/
def jobFailedC9 : JobRecord :=
  { job_id := "j1", status := JobStatus.FAILED, file_path := "f", total_lines := 10,
    processed_lines := 4, error_lines := 2, errors := ["boom"], start_time := 42,
    end_time := some 99 }

/-- C9 (counterexample): for an existing job whose status is `FAILED`, the
status response omits `startTime` and `endTime` (they are attached only for
`COMPLETED` jobs), even though the ledger row stores both times — so the
snapshot does not include start/end times regardless of status. -/
theorem claim9_counterexample :
    (getJobStatus [jobFailedC9] "j1").map (fun r => (r.status, r.startTime, r.endTime)) =
      .ok (JobStatus.FAILED, none, none) ∧
    jobFailedC9.start_time = 42 ∧ jobFailedC9.end_time = some 99 :=
  ⟨rfl, rfl, rfl⟩

/-- C9 (amended): `getJobStatus` fails with `NotFound` exactly when no job with
that id exists; for an existing job it returns the ledger snapshot — status,
processed/error/total counters and error list — with `startTime`/`endTime`
attached only when the job's status is `COMPLETED`. -/
theorem claim9_amended (ledger : List JobRecord) (jobId : String) :
    (getJobStatus ledger jobId = .error "Job not found" ↔
      ∀ job ∈ ledger, job.job_id ≠ jobId) ∧
    (∀ job, ledger.find? (fun j => j.job_id = jobId) = some job →
      getJobStatus ledger jobId =
        .ok { jobId := job.job_id, status := job.status,
              processedLines := job.processed_lines, errorLines := job.error_lines,
              totalLines := job.total_lines, errors := job.errors,
              startTime := if job.status = JobStatus.COMPLETED then some job.start_time else none,
              endTime := if job.status = JobStatus.COMPLETED then job.end_time else none }) := by
  constructor
  · unfold getJobStatus
    cases hf : ledger.find? (fun j => j.job_id = jobId) with
    | none =>
      simp only [hf]
      constructor
      · intro _ job hmem
        have := List.find?_eq_none.mp hf job hmem
        simpa using this
      · intro _
        trivial
    | some job =>
      simp only [hf]
      constructor
      · intro h
        exact absurd h (by simp)
      · intro hall
        have hj := List.find?_some hf
        have hmem := List.mem_of_find?_eq_some hf
        simp only [decide_eq_true_eq] at hj
        exact absurd hj (hall job hmem)
  · intro job hf
    unfold getJobStatus
    rw [hf]

/-- C9 (witness): the amended contract at a concrete one-job ledger: an
unknown id is `NotFound`, and the `FAILED` job's snapshot carries counters and
errors but no times. -/
theorem claim9_witness :
    getJobStatus [jobFailedC9] "zz" = .error "Job not found" ∧
    getJobStatus [jobFailedC9] "j1" =
      .ok { jobId := "j1", status := JobStatus.FAILED, processedLines := 4, errorLines := 2,
            totalLines := 10, errors := ["boom"], startTime := none, endTime := none } := by
  constructor
  · exact (claim9_amended [jobFailedC9] "zz").1.mpr (by decide)
  · have h := (claim9_amended [jobFailedC9] "j1").2 jobFailedC9 (by rfl)
    simpa using h

/-! ## Gap-finder claim -/

/-- An event from 10:00 to 11:00 (in epoch seconds within some day). -/
def gEv1 : OEvent := { event_id := "a", event_name := "A", start_sec := 36000, end_sec := 39600 }

/-- An event from 11:30 to 12:00, leaving a 30-minute gap after `gEv1`. -/
def gEv2 : OEvent := { event_id := "b", event_name := "B", start_sec := 41400, end_sec := 43200 }

/-- The 30-minute gap between `gEv1` and `gEv2`. -/
def gapW : GapInfo :=
  { startOfGap := 39600, endOfGap := 41400, gap_seconds := 1800, durationMinutes := 30,
    precedingEvent := gEv1, succeedingEvent := gEv2 }

/-- C6: the gap finder restricts to events fully contained in the window,
sorts them by start date, scans consecutive pairs, and reports exactly one
gap — a consecutive positive gap of maximal duration — returning the explicit
no-gap result (rather than an error) when fewer than two qualifying events
exist or no positive gap exists. -/
theorem claim6_gap_finder (evs : List OEvent) (ws we : Int) :
    (orderedEvents evs ws we).Perm
        (evs.filter (fun e => decide (ws ≤ e.start_sec) && decide (e.end_sec ≤ we))) ∧
    (orderedEvents evs ws we).Sorted (fun a b => a.start_sec ≤ b.start_sec) ∧
    ((orderedEvents evs ws we).length < 2 → positiveGaps evs ws we = []) ∧
    (findTemporalGaps evs ws we =
        { largestGap := none,
          message := "No significant temporal gaps found within the specified range, or too few events." } ↔
      positiveGaps evs ws we = []) ∧
    (∀ g, findTemporalGaps evs ws we =
        { largestGap := some g, message := "Largest temporal gap identified." } →
      g ∈ positiveGaps evs ws we ∧
        ∀ g2 ∈ positiveGaps evs ws we, g2.gap_seconds ≤ g.gap_seconds) := by
  haveI hTot : IsTotal OEvent (fun a b => a.start_sec ≤ b.start_sec) :=
    ⟨fun a b => le_total _ _⟩
  haveI hTr : IsTrans OEvent (fun a b => a.start_sec ≤ b.start_sec) :=
    ⟨fun _ _ _ => le_trans⟩
  haveI hTot2 : IsTotal GapInfo (fun a b => b.gap_seconds ≤ a.gap_seconds) :=
    ⟨fun a b => le_total _ _⟩
  haveI hTr2 : IsTrans GapInfo (fun a b => b.gap_seconds ≤ a.gap_seconds) :=
    ⟨fun _ _ _ h1 h2 => le_trans h2 h1⟩
  refine ⟨List.perm_insertionSort _ _, List.sorted_insertionSort _ _, ?_, ?_, ?_⟩
  · intro h
    rcases hord : orderedEvents evs ws we with _ | ⟨x, _ | ⟨y, rest⟩⟩
    · simp [positiveGaps, hord]
    · simp [positiveGaps, hord]
    · rw [hord] at h
      simp at h
      omega
  · cases hs : List.insertionSort (fun a b => b.gap_seconds ≤ a.gap_seconds)
        (positiveGaps evs ws we) with
    | nil =>
      have hperm := List.perm_insertionSort
        (fun a b : GapInfo => b.gap_seconds ≤ a.gap_seconds) (positiveGaps evs ws we)
      rw [hs] at hperm
      have hnil : positiveGaps evs ws we = [] := (List.perm_nil.mp hperm.symm)
      simp [findTemporalGaps, hs, hnil]
    | cons g0 rest =>
      have hne : positiveGaps evs ws we ≠ [] := by
        intro hnil
        rw [hnil] at hs
        simp [List.insertionSort] at hs
      simp only [findTemporalGaps, hs]
      constructor
      · intro h
        exact absurd (congrArg GapResult.largestGap h) (by simp)
      · intro h
        exact absurd h hne
  · intro g hg
    cases hs : List.insertionSort (fun a b => b.gap_seconds ≤ a.gap_seconds)
        (positiveGaps evs ws we) with
    | nil =>
      simp only [findTemporalGaps, hs] at hg
      exact absurd (congrArg GapResult.largestGap hg) (by simp)
    | cons g0 rest =>
      simp only [findTemporalGaps, hs] at hg
      have hg0 : g0 = g := by
        have := congrArg GapResult.largestGap hg
        simpa using this
      subst hg0
      have hsorted := List.sorted_insertionSort
        (fun a b : GapInfo => b.gap_seconds ≤ a.gap_seconds) (positiveGaps evs ws we)
      rw [hs] at hsorted
      rw [List.sorted_cons] at hsorted
      constructor
      · have : g0 ∈ List.insertionSort (fun a b => b.gap_seconds ≤ a.gap_seconds)
            (positiveGaps evs ws we) := by
          rw [hs]; exact List.mem_cons_self _ _
        exact (List.mem_insertionSort _).mp this
      · intro g2 hg2
        have : g2 ∈ List.insertionSort (fun a b => b.gap_seconds ≤ a.gap_seconds)
            (positiveGaps evs ws we) := (List.mem_insertionSort _).mpr hg2
        rw [hs] at this
        rcases List.mem_cons.mp this with rfl | hmem
        · exact le_refl _
        · exact hsorted.1 g2 hmem

/-- C6 (witness): the gap-finder contract applied to the concrete two-event
window (events 10:00–11:00 and 11:30–12:00): the reported 30-minute gap is a
consecutive positive gap of maximal duration. -/
theorem claim6_witness :
    gapW ∈ positiveGaps [gEv1, gEv2] 0 100000 ∧
    ∀ g2 ∈ positiveGaps [gEv1, gEv2] 0 100000, g2.gap_seconds ≤ gapW.gap_seconds :=
  (claim6_gap_finder [gEv1, gEv2] 0 100000).2.2.2.2 gapW (by decide)

/-! ## Overlap-detector claim -/

/-- Rounding `jsRound60` is monotone. -/
theorem jsRound60_mono {a b : Int} (h : a ≤ b) : jsRound60 a ≤ jsRound60 b := by
  unfold jsRound60
  have ht : a.toNat ≤ b.toNat := Int.toNat_le_toNat h
  exact_mod_cast Nat.div_le_div_right (Nat.add_le_add_right ht 30)

/-- Comparison `charsLt` is irreflexive. -/
theorem charsLt_irrefl (l : List Char) : charsLt l l = false := by
  induction l with
  | nil => rfl
  | cons c cs ih => simp [charsLt, ih]

/-- Comparison `charsLt` is asymmetric. -/
theorem charsLt_asymm : ∀ {a b : List Char}, charsLt a b = true → charsLt b a = false
  | [], [], h => by simp [charsLt] at h
  | [], _ :: _, _ => rfl
  | _ :: _, [], h => by simp [charsLt] at h
  | c :: cs, d :: ds, h => by
    unfold charsLt at h ⊢
    rcases lt_trichotomy c d with hcd | hcd | hcd
    · simp [hcd, asymm hcd]
    · subst hcd
      simp only [lt_irrefl, if_false] at h ⊢
      exact charsLt_asymm h
    · simp [hcd, asymm hcd] at h
/-- Comparison `charsLt` is connex: two distinct lists compare strictly one way. -/
theorem charsLt_connex : ∀ {a b : List Char}, a ≠ b →
    charsLt a b = true ∨ charsLt b a = true
  | [], [], h => absurd rfl h
  | [], _ :: _, _ => Or.inl rfl
  | _ :: _, [], _ => Or.inr rfl
  | c :: cs, d :: ds, h => by
    rcases lt_trichotomy c d with hcd | hcd | hcd
    · left
      simp [charsLt, hcd]
    · subst hcd
      have hne : cs ≠ ds := fun hh => h (by rw [hh])
      rcases charsLt_connex hne with ht | ht
      · left
        simp [charsLt, lt_irrefl, ht]
      · right
        simp [charsLt, lt_irrefl, ht]
    · right
      simp [charsLt, hcd]

/-- Comparison `strLt` is asymmetric. -/
theorem strLt_asymm {a b : String} (h : strLt a b = true) : strLt b a = false :=
  charsLt_asymm h

/-- Two distinct strings compare strictly one way under `strLt`. -/
theorem strLt_connex {a b : String} (h : a ≠ b) :
    strLt a b = true ∨ strLt b a = true :=
  charsLt_connex (fun hd => h (congrArg String.mk hd))

/-- The overlap join/filter condition holds exactly when the ids are strictly
ordered and the intervals genuinely overlap (`max` of starts before `min` of
ends); the two SQL start/end comparisons follow from the overlap itself. -/
theorem overlapJoinCond_iff (e1 e2 : OEvent) :
    overlapJoinCond e1 e2 = true ↔
      strLt e1.event_id e2.event_id = true ∧
        max e1.start_sec e2.start_sec < min e1.end_sec e2.end_sec := by
  unfold overlapJoinCond overlapRaw
  simp only [Bool.and_eq_true, decide_eq_true_eq]
  constructor
  · rintro ⟨⟨⟨h1, h2⟩, h3⟩, h4⟩
    exact ⟨h1, by omega⟩
  · rintro ⟨h1, h2⟩
    rw [max_lt_iff, lt_min_iff, lt_min_iff] at h2
    refine ⟨⟨⟨h1, h2.1.2⟩, h2.2.1⟩, ?_⟩
    omega

/-- A row is reported by `findOverlappingEvents` exactly when it is built from
an id-ordered pair of table events satisfying the join condition. -/
theorem mem_findOverlappingEvents {evs : List OEvent} {r : OverlapRow} :
    r ∈ findOverlappingEvents evs ↔
      ∃ e1 ∈ evs, ∃ e2 ∈ evs, overlapJoinCond e1 e2 = true ∧
        r = { event1 := e1, event2 := e2, overlap_seconds := overlapRaw e1 e2,
              overlap_duration_minutes := jsRound60 (overlapRaw e1 e2) } := by
  unfold findOverlappingEvents
  rw [List.mem_insertionSort]
  simp only [List.mem_flatMap, List.mem_map, List.mem_filter]
  constructor
  · rintro ⟨e1, he1, e2, ⟨he2, hc⟩, hr⟩
    exact ⟨e1, he1, e2, he2, hc, hr.symm⟩
  · rintro ⟨e1, he1, e2, he2, hc, hr⟩
    exact ⟨e1, he1, e2, ⟨he2, hc⟩, hr.symm⟩

/-- C5 (amended): `findOverlappingEvents` reports an unordered pair of
distinct events iff `max(startA, startB) < min(endA, endB)`; each reported row
carries the raw overlap `min(end) - max(start)` (always positive) and displays
`overlap_duration_minutes = Math.round(overlap_seconds / 60)` — which is 0, not
positive, for overlaps under 30 seconds; no pair is reported in both orders, no
event is reported against itself (ids are strictly ordered within a row), and
the output is ordered by overlap duration descending. -/
theorem claim5_amended (evs : List OEvent) :
    (∀ a ∈ evs, ∀ b ∈ evs, a.event_id ≠ b.event_id →
      ((∃ r ∈ findOverlappingEvents evs,
          (r.event1 = a ∧ r.event2 = b) ∨ (r.event1 = b ∧ r.event2 = a)) ↔
        max a.start_sec b.start_sec < min a.end_sec b.end_sec)) ∧
    (∀ r ∈ findOverlappingEvents evs,
      0 < r.overlap_seconds ∧
      r.overlap_seconds =
        min r.event1.end_sec r.event2.end_sec - max r.event1.start_sec r.event2.start_sec ∧
      r.overlap_duration_minutes = jsRound60 r.overlap_seconds ∧
      strLt r.event1.event_id r.event2.event_id = true) ∧
    (∀ r ∈ findOverlappingEvents evs, ∀ r2 ∈ findOverlappingEvents evs,
      ¬(r.event1.event_id = r2.event2.event_id ∧ r.event2.event_id = r2.event1.event_id)) ∧
    (findOverlappingEvents evs).Sorted
      (fun r r2 => r2.overlap_duration_minutes ≤ r.overlap_duration_minutes) := by
  have hrow : ∀ r ∈ findOverlappingEvents evs,
      0 < r.overlap_seconds ∧
      r.overlap_seconds =
        min r.event1.end_sec r.event2.end_sec - max r.event1.start_sec r.event2.start_sec ∧
      r.overlap_duration_minutes = jsRound60 r.overlap_seconds ∧
      strLt r.event1.event_id r.event2.event_id = true := by
    intro r hr
    rcases mem_findOverlappingEvents.mp hr with ⟨e1, he1, e2, he2, hc, rfl⟩
    rcases (overlapJoinCond_iff e1 e2).mp hc with ⟨hid, hov⟩
    refine ⟨?_, rfl, rfl, hid⟩
    dsimp only
    unfold overlapRaw
    omega
  refine ⟨?_, hrow, ?_, ?_⟩
  · intro a ha b hb hne
    constructor
    · rintro ⟨r, hr, hcase⟩
      rcases mem_findOverlappingEvents.mp hr with ⟨e1, he1, e2, he2, hc, rfl⟩
      rcases (overlapJoinCond_iff e1 e2).mp hc with ⟨hid, hov⟩
      rcases hcase with ⟨h1, h2⟩ | ⟨h1, h2⟩
      · dsimp only at h1 h2
        subst h1
        subst h2
        exact hov
      · dsimp only at h1 h2
        subst h1
        subst h2
        rw [max_comm, min_comm]
        exact hov
    · intro hov
      have hnes : a.event_id ≠ b.event_id := hne
      rcases strLt_connex hnes with hlt | hgt
      · refine ⟨_, mem_findOverlappingEvents.mpr
          ⟨a, ha, b, hb, (overlapJoinCond_iff a b).mpr ⟨hlt, hov⟩, rfl⟩, Or.inl ⟨rfl, rfl⟩⟩
      · have hov2 : max b.start_sec a.start_sec < min b.end_sec a.end_sec := by
          rw [max_comm, min_comm]
          exact hov
        refine ⟨_, mem_findOverlappingEvents.mpr
          ⟨b, hb, a, ha, (overlapJoinCond_iff b a).mpr ⟨hgt, hov2⟩, rfl⟩, Or.inr ⟨rfl, rfl⟩⟩
  · intro r hr r2 hr2
    rintro ⟨h1, h2⟩
    have ha := (hrow r hr).2.2.2
    have hb := (hrow r2 hr2).2.2.2
    rw [h1, h2] at ha
    exact absurd hb (by simp [strLt_asymm ha])
  · haveI hTot : IsTotal OverlapRow (fun r r2 => r2.overlap_seconds ≤ r.overlap_seconds) :=
      ⟨fun a b => le_total _ _⟩
    haveI hTr : IsTrans OverlapRow (fun r r2 => r2.overlap_seconds ≤ r.overlap_seconds) :=
      ⟨fun _ _ _ h1 h2 => le_trans h2 h1⟩
    have hs : (findOverlappingEvents evs).Sorted
        (fun r r2 => r2.overlap_seconds ≤ r.overlap_seconds) := by
      unfold findOverlappingEvents
      exact List.sorted_insertionSort _ _
    refine List.Pairwise.imp_of_mem ?_ hs
    intro r r2 hr hr2 hle
    rw [(hrow r hr).2.2.1, (hrow r2 hr2).2.2.1]
    exact jsRound60_mono hle

/-- An event over seconds 0–10. -/
def oS1 : OEvent := { event_id := "a", event_name := "A", start_sec := 0, end_sec := 10 }

/-- An event over seconds 5–100, overlapping `oS1` by 5 seconds. -/
def oS2 : OEvent := { event_id := "b", event_name := "B", start_sec := 5, end_sec := 100 }

/-- C5 (counterexample): two events overlapping by 5 seconds are reported as an
overlapping pair, but the reported `overlap_duration_minutes` is
`Math.round(5/60) = 0` — not greater than 0, and not the raw
`min(end) - max(start)` difference (5 seconds) in any unit. -/
theorem claim5_counterexample :
    (findOverlappingEvents [oS1, oS2]).map
        (fun r => (r.event1.event_id, r.event2.event_id, r.overlap_seconds,
          r.overlap_duration_minutes)) = [("a", "b", 5, 0)] ∧
    ¬ (∀ r ∈ findOverlappingEvents [oS1, oS2], 0 < r.overlap_duration_minutes) := by
  constructor
  · decide
  · decide

/-- C5 (witness): the amended overlap contract applied to the concrete pair
`oS1`, `oS2`: the pair genuinely overlaps, so a row reporting it exists. -/
theorem claim5_witness :
    ∃ r ∈ findOverlappingEvents [oS1, oS2],
      (r.event1 = oS1 ∧ r.event2 = oS2) ∨ (r.event1 = oS2 ∧ r.event2 = oS1) :=
  ((claim5_amended [oS1, oS2]).1 oS1 (by simp) oS2 (by simp) (by decide)).mpr (by decide)

/-! ## Batch-commit failure accounting (C2) -/

/-- While the batch stays under 100, a run over valid lines only grows the
line counter, the processed counter and the batch (by one draft per line);
no commit happens and the error counter, commit log and oracle are
untouched. -/
theorem runLines_fill (fp : String) :
    ∀ (lines : List String) (st : IngestState),
      (∀ l ∈ lines, ∀ n : Nat, ∃ d, parseLine l n fp = Except.ok (some d)) →
      st.batch.length + lines.length < 100 →
      ∃ ds : List EventDraft, ds.length = lines.length ∧ ∃ ops2,
        runLines fp st lines =
          { st with lineNumber := st.lineNumber + lines.length,
                    processedLines := st.processedLines + lines.length,
                    batch := st.batch ++ ds, ops := ops2 } := by
  intro lines
  induction lines with
  | nil =>
    intro st hv hlen
    refine ⟨[], rfl, st.ops, ?_⟩
    simp [runLines]
  | cons l ls ih =>
    intro st hv hlen
    obtain ⟨d, hd⟩ := hv l (List.mem_cons_self l ls) (st.lineNumber + 1)
    have hstep : ∃ ops1, stepLine fp st l =
        { st with lineNumber := st.lineNumber + 1,
                  processedLines := st.processedLines + 1,
                  batch := st.batch ++ [d], ops := ops1 } := by
      unfold stepLine
      simp only [hd]
      have hnb : ¬ 100 ≤ (st.batch ++ [d]).length := by
        simp only [List.length_append, List.length_singleton]
        simp at hlen
        omega
      rw [if_neg hnb]
      by_cases hm : (st.lineNumber + 1) % 100 = 0
      · rw [if_pos hm]
        exact ⟨_, rfl⟩
      · rw [if_neg hm]
        exact ⟨_, rfl⟩
    obtain ⟨ops1, hstepeq⟩ := hstep
    have hv2 : ∀ l2 ∈ ls, ∀ n : Nat, ∃ d2, parseLine l2 n fp = Except.ok (some d2) :=
      fun l2 hm n => hv l2 (List.mem_cons_of_mem _ hm) n
    have hlen2 : (stepLine fp st l).batch.length + ls.length < 100 := by
      rw [hstepeq]
      simp only [List.length_append, List.length_singleton]
      simp at hlen ⊢
      omega
    obtain ⟨ds, hdslen, ops2, hrun⟩ := ih (stepLine fp st l) hv2 hlen2
    refine ⟨d :: ds, by simp [hdslen], ops2, ?_⟩
    have hcons : runLines fp st (l :: ls) = runLines fp (stepLine fp st l) ls := rfl
    rw [hcons, hrun, hstepeq]
    cases st
    simp only [List.length_cons, IngestState.mk.injEq]
    and_intros
    all_goals first
      | trivial
      | omega
      | (simp only [List.append_assoc, List.singleton_append])

/-- The line step that fills the batch to 100 with a successful parse commits
the batch as one group; on a successful commit the batch is cleared and the
counters are unchanged. -/
theorem stepLine_commit_success (fp : String) (st : IngestState) (l : String) (d : EventDraft)
    (hd : parseLine l (st.lineNumber + 1) fp = Except.ok (some d))
    (hfull : 100 ≤ st.batch.length + 1)
    (ho : (takeOracle st.oracle).1 = true) :
    ∃ ops2, stepLine fp st l =
      { st with
          lineNumber := st.lineNumber + 1, processedLines := st.processedLines + 1,
          batch := [], commits := st.commits ++ [(st.batch ++ [d], true)],
          oracle := (takeOracle st.oracle).2, ops := ops2 } := by
  unfold stepLine
  simp only [hd]
  have hc : 100 ≤ (st.batch ++ [d]).length := by
    simp only [List.length_append, List.length_singleton]
    omega
  rw [if_pos hc]
  rw [if_pos ho]
  by_cases hm : (st.lineNumber + 1) % 100 = 0
  · rw [if_pos hm]
    exact ⟨_, rfl⟩
  · rw [if_neg hm]
    exact ⟨_, rfl⟩

/-- Ingesting 150 valid lines with commit oracle `[true, false]`: exactly two
commits occur — the full batch of 100 (successful) then the trailing 50
(failed) — and the final counters show 100 processed, 50 errors. -/
theorem ingest150 (fp : String) (lines : List String)
    (hlen : lines.length = 150)
    (hv : ∀ l ∈ lines, ∀ n : Nat, ∃ d, parseLine l n fp = Except.ok (some d)) :
    (processFile fp lines [true, false]).commits.map (fun c => (c.1.length, c.2)) =
      [(100, true), (50, false)] ∧
    (processFile fp lines [true, false]).processedLines = 100 ∧
    (processFile fp lines [true, false]).errorLines = 50 := by
  have hsplit : lines = lines.take 99 ++ lines.drop 99 := (List.take_append_drop 99 lines).symm
  have hlen99 : (lines.take 99).length = 99 := by
    rw [List.length_take]
    omega
  have hlend : (lines.drop 99).length = 51 := by
    rw [List.length_drop]
    omega
  obtain ⟨l100, rest, hdrop⟩ : ∃ l100 rest, lines.drop 99 = l100 :: rest := by
    cases hd : lines.drop 99 with
    | nil =>
      rw [hd] at hlend
      simp at hlend
    | cons a b => exact ⟨a, b, rfl⟩
  have hlenrest : rest.length = 50 := by
    have h2 := hlend
    rw [hdrop] at h2
    simpa using h2
  have hv99 : ∀ l ∈ lines.take 99, ∀ n : Nat, ∃ d, parseLine l n fp = Except.ok (some d) :=
    fun l hm n => hv l (List.mem_of_mem_take hm) n
  have hmem100 : l100 ∈ lines := by
    have hm : l100 ∈ lines.drop 99 := by
      rw [hdrop]
      exact List.mem_cons_self _ _
    exact List.mem_of_mem_drop hm
  have hvrest : ∀ l ∈ rest, ∀ n : Nat, ∃ d, parseLine l n fp = Except.ok (some d) := by
    intro l hm n
    refine hv l (List.mem_of_mem_drop (l := lines) (n := 99) ?_) n
    rw [hdrop]
    exact List.mem_cons_of_mem _ hm
  obtain ⟨ds, hds, ops1, h99⟩ := runLines_fill fp (lines.take 99)
    (initState [true, false] lines.length) hv99
    (by simp [initState, hlen99])
  rw [hlen99] at h99
  rw [hlen99] at hds
  obtain ⟨d100, hd100⟩ := hv l100 hmem100
    ((runLines fp (initState [true, false] lines.length) (lines.take 99)).lineNumber + 1)
  have hfull : 100 ≤ (runLines fp (initState [true, false] lines.length)
      (lines.take 99)).batch.length + 1 := by
    rw [h99]
    simp [initState, hds]
  have ho : (takeOracle (runLines fp (initState [true, false] lines.length)
      (lines.take 99)).oracle).1 = true := by
    rw [h99]
    simp [initState, takeOracle]
  obtain ⟨ops2, hstep⟩ := stepLine_commit_success fp _ l100 d100 hd100 hfull ho
  have hbatch100 : (stepLine fp (runLines fp (initState [true, false] lines.length)
      (lines.take 99)) l100).batch.length + rest.length < 100 := by
    rw [hstep]
    simp [hlenrest]
  obtain ⟨ds2, hds2, ops3, hrest⟩ := runLines_fill fp rest _ hvrest hbatch100
  rw [hlenrest] at hds2
  have hsplit2 : lines = lines.take 99 ++ (l100 :: rest) := by
    rw [← hdrop, List.take_append_drop]
  have happend : ∀ (st : IngestState) (a b : List String),
      runLines fp st (a ++ b) = runLines fp (runLines fp st a) b := by
    intro st a b
    simp [runLines, List.foldl_append]
  have hrunsplit : runLines fp (initState [true, false] lines.length) lines =
      runLines fp (stepLine fp (runLines fp (initState [true, false] lines.length)
        (lines.take 99)) l100) rest := by
    nth_rewrite 2 [hsplit2]
    rw [happend]
    rfl
  have hds2ne : ds2 ≠ [] := by
    intro hnil
    rw [hnil] at hds2
    simp at hds2
  unfold processFile
  dsimp only
  rw [hrunsplit, hrest, hstep, h99]
  simp only [initState]
  unfold finalizeBatch
  rw [if_neg (by simpa using hds2ne)]
  simp only [takeOracle]
  norm_num
  refine ⟨?_, ?_, ?_⟩
  · simp [hds, hds2]
  · omega
  · simp [hds2]


/-- C2: whenever a batch commit fails, every record of that batch is counted
as an error and none as processed — the processed counter drops by the batch
size, the error counter rises by it — and the batch is discarded without
retry (one commit log entry, one oracle consumption, batch emptied).  This
holds for the trailing partial batch (`finalizeBatch`) and for the in-loop
full batch of 100 (`stepLine`); in particular, for 150 valid lines whose
second commit fails, exactly two commits of sizes 100 and 50 occur and the
final `processed_lines` is exactly 100. -/
theorem claim2_batch_commit_failure (fp : String) :
    (∀ st : IngestState, st.batch ≠ [] → (takeOracle st.oracle).1 = false →
      (finalizeBatch st).processedLines = st.processedLines - st.batch.length ∧
      (finalizeBatch st).errorLines = st.errorLines + st.batch.length ∧
      (finalizeBatch st).commits = st.commits ++ [(st.batch, false)] ∧
      (finalizeBatch st).oracle = (takeOracle st.oracle).2) ∧
    (∀ (st : IngestState) (l : String) (d : EventDraft),
      parseLine l (st.lineNumber + 1) fp = Except.ok (some d) →
      100 ≤ st.batch.length + 1 →
      (takeOracle st.oracle).1 = false →
      (stepLine fp st l).processedLines = st.processedLines + 1 - (st.batch.length + 1) ∧
      (stepLine fp st l).errorLines = st.errorLines + (st.batch.length + 1) ∧
      (stepLine fp st l).batch = [] ∧
      (stepLine fp st l).commits = st.commits ++ [(st.batch ++ [d], false)] ∧
      (stepLine fp st l).oracle = (takeOracle st.oracle).2) ∧
    (∀ lines : List String, lines.length = 150 →
      (∀ l ∈ lines, ∀ n : Nat, ∃ d, parseLine l n fp = Except.ok (some d)) →
      (processFile fp lines [true, false]).commits.map (fun c => (c.1.length, c.2)) =
        [(100, true), (50, false)] ∧
      (processFile fp lines [true, false]).processedLines = 100 ∧
      (processFile fp lines [true, false]).errorLines = 50) := by
  refine ⟨?_, ?_, fun lines h1 h2 => ingest150 fp lines h1 h2⟩
  · intro st hb ho
    unfold finalizeBatch
    rw [if_neg hb]
    dsimp only
    rw [if_neg (by simp [ho])]
    exact ⟨rfl, rfl, rfl, rfl⟩
  · intro st l d hd hfull ho
    unfold stepLine
    simp only [hd]
    have hc : 100 ≤ (st.batch ++ [d]).length := by
      simp only [List.length_append, List.length_singleton]
      omega
    rw [if_pos hc]
    have hno : ¬ ((takeOracle st.oracle).1 = true) := by
      rw [ho]
      simp
    rw [if_neg hno]
    refine ⟨?_, ?_, ?_, ?_, ?_⟩
    all_goals simp only [apply_ite IngestState.processedLines, apply_ite IngestState.errorLines,
      apply_ite IngestState.batch, apply_ite IngestState.commits, apply_ite IngestState.oracle]
    all_goals try simp only [ite_self]
    all_goals try simp only [List.length_append, List.length_singleton]
    all_goals rfl

/-- A valid 6-field input line (version-4 UUID, ISO dates in order, `NULL`
parent). -/
def validLine : String :=
  "a1b2c3d4-e5f6-4890-9234-567890abcdef|Event X|2023-01-01T10:00:00Z|2023-01-01T11:30:00Z|NULL|desc"

/-- A 150-line file of valid lines. -/
def c2lines : List String := List.replicate 150 validLine

/-- C2 (witness): the batch-failure contract applied to the concrete 150-line
file of `validLine`s with oracle `[true, false]`. -/
theorem claim2_witness :
    (processFile "f" c2lines [true, false]).commits.map (fun c => (c.1.length, c.2)) =
      [(100, true), (50, false)] ∧
    (processFile "f" c2lines [true, false]).processedLines = 100 ∧
    (processFile "f" c2lines [true, false]).errorLines = 50 :=
  (claim2_batch_commit_failure "f").2.2 c2lines (by simp [c2lines])
    (fun l hl n => by
      rw [List.eq_of_mem_replicate hl]
      exact ⟨_, rfl⟩)

end Chrono
